import Mathlib

/-!
Verification of the PTY session manager in `src-tauri/src/pty.rs`.

The Rust code is shallowly embedded: the session registry (a lock-protected
`HashMap<String, Arc<Mutex<PtySession>>>`) becomes an association list, the
OS-facing effects (writer, flush, resize, process introspection, signal
delivery) become oracle parameters or explicit action lists, and every public
operation becomes a pure Lean function translated line by line from the source.
-/

namespace PtyRs

/-- Error taxonomy of the session-manager operations (the source returns
formatted strings such as "Session ... not found"; we model the error class). -/
inductive PtyError
  | SessionNotFound
  | IoError
deriving DecidableEq

/-- Session record (pty.rs:12-17).  `master` is modeled by the `resizeOk`
oracle, `writer` by the `writeOk`/`flushOk` oracles plus the `buffer` of bytes
the writer has accepted so far; `child_id` and `cwd` are stored as in the
source. -/
structure PtySession where
  child_id : Nat
  cwd : String
  writeOk : Bool
  flushOk : Bool
  resizeOk : Bool
  buffer : List Nat
deriving DecidableEq

/-- The session registry (pty.rs:20-22): `Mutex<HashMap<String, ...>>`,
modeled as an association list with HashMap semantics (unique keys). -/
abbrev Registry := List (String × PtySession)

/-- HashMap lookup: `sessions.get(&session_id)`. -/
def lookupReg : Registry → String → Option PtySession
  | [], _ => none
  | (k, v) :: rest, id => if k = id then some v else lookupReg rest id

/-- HashMap removal: `sessions.remove(&session_id)` (removing an absent key is
a no-op). -/
def removeReg (reg : Registry) (id : String) : Registry :=
  reg.filter (fun p => p.1 != id)

/-- In-place mutation of the session behind `Arc<Mutex<...>>`: the map entry
for `id` now refers to the updated session value. -/
def updateReg (reg : Registry) (id : String) (s : PtySession) : Registry :=
  reg.map (fun p => if p.1 = id then (p.1, s) else p)

/-- Whether a session id is present in the registry. -/
def isRegistered (reg : Registry) (id : String) : Bool :=
  (lookupReg reg id).isSome

theorem lookupReg_cons (k : String) (v : PtySession) (rest : Registry) (id : String) :
    lookupReg ((k, v) :: rest) id = if k = id then some v else lookupReg rest id := rfl

theorem removeReg_cons (k : String) (v : PtySession) (rest : Registry) (id : String) :
    removeReg ((k, v) :: rest) id =
      if k = id then removeReg rest id else (k, v) :: removeReg rest id := by
  by_cases h : k = id
  · simp [removeReg, List.filter_cons, h]
  · simp [removeReg, List.filter_cons, h]

theorem updateReg_cons (k : String) (v : PtySession) (rest : Registry) (id : String)
    (s : PtySession) :
    updateReg ((k, v) :: rest) id s =
      (if k = id then (k, s) else (k, v)) :: updateReg rest id s := rfl

theorem lookupReg_removeReg_self (reg : Registry) (id : String) :
    lookupReg (removeReg reg id) id = none := by
  induction reg with
  | nil => rfl
  | cons p rest ih =>
    obtain ⟨k, v⟩ := p
    rw [removeReg_cons]
    by_cases h : k = id
    · rw [if_pos h]; exact ih
    · rw [if_neg h, lookupReg_cons, if_neg h]; exact ih

theorem lookupReg_removeReg_ne (reg : Registry) (id j : String) (h : j ≠ id) :
    lookupReg (removeReg reg j) id = lookupReg reg id := by
  induction reg with
  | nil => rfl
  | cons p rest ih =>
    obtain ⟨k, v⟩ := p
    rw [removeReg_cons]
    by_cases hp : k = j
    · have hpid : k ≠ id := by rw [hp]; exact h
      rw [if_pos hp, lookupReg_cons, if_neg hpid]; exact ih
    · rw [if_neg hp, lookupReg_cons, lookupReg_cons]
      by_cases hid : k = id
      · rw [if_pos hid, if_pos hid]
      · rw [if_neg hid, if_neg hid]; exact ih

theorem lookupReg_updateReg_self (reg : Registry) (id : String) (s : PtySession) :
    lookupReg (updateReg reg id s) id = (lookupReg reg id).map (fun _ => s) := by
  induction reg with
  | nil => rfl
  | cons p rest ih =>
    obtain ⟨k, v⟩ := p
    rw [updateReg_cons, lookupReg_cons]
    by_cases h : k = id
    · rw [if_pos h]
      simp only [lookupReg_cons, if_pos h, Option.map_some]
      rfl
    · rw [if_neg h]
      simp only [lookupReg_cons, if_neg h]
      exact ih

theorem isRegistered_updateReg (reg : Registry) (id j : String) (s : PtySession) :
    isRegistered (updateReg reg j s) id = isRegistered reg id := by
  induction reg with
  | nil => rfl
  | cons p rest ih =>
    obtain ⟨k, v⟩ := p
    unfold isRegistered at *
    rw [updateReg_cons]
    by_cases hj : k = j
    · rw [if_pos hj]
      by_cases hid : k = id
      · rw [lookupReg_cons, lookupReg_cons, if_pos hid, if_pos hid]; rfl
      · rw [lookupReg_cons, lookupReg_cons, if_neg hid, if_neg hid]; exact ih
    · rw [if_neg hj]
      by_cases hid : k = id
      · rw [lookupReg_cons, lookupReg_cons, if_pos hid, if_pos hid]
      · rw [lookupReg_cons, lookupReg_cons, if_neg hid, if_neg hid]; exact ih

/-! ## Shell selection (pty.rs:199-207) -/

/-- The fixed allow-list of shells accepted from the environment. -/
def shellAllowList : List String := ["/bin/zsh", "/bin/bash", "/bin/sh"]

/-- select_shell (pty.rs:199-207).  The `SHELL` environment variable is
modeled as `Option String` (`none` = unset, i.e. `std::env::var` errors). -/
def select_shell (shellEnv : Option String) : String :=
  let fallback := "/bin/zsh"
  let raw := shellEnv.getD fallback
  if raw = "/bin/zsh" ∨ raw = "/bin/bash" ∨ raw = "/bin/sh" then raw else fallback

/-! ## One-shot exit notification (pty.rs:38-42) and the per-session threads -/

/-- emit_pty_exit_once (pty.rs:38-42): `exit_emitted.swap(true, AcqRel)` returns
the previous value and stores `true`; the event is emitted iff the previous
value was `false`.  Result: (didEmit, newFlagValue). -/
def emit_pty_exit_once (exit_emitted : Bool) : Bool × Bool :=
  (!exit_emitted, true)

/-- Abstract actions performed by the two per-session background threads. -/
inductive Action
  | emitOutput
  | emitExitOnce
  | removeSession
  | waitChild
deriving DecidableEq

/-- Final actions of the reader thread (pty.rs:145-179): on `Ok(0)` (EOF) or
`Err` the loop calls `emit_pty_exit_once` and breaks, then the thread removes
the session from the registry (lines 176-178). -/
def readerThreadFinal : List Action := [.emitExitOnce, .removeSession]

/-- Body of the waiter thread (pty.rs:185-193): waits for the child, calls
`emit_pty_exit_once`, then removes the session from the registry
(lines 190-192). -/
def waiterThreadBody : List Action := [.waitChild, .emitExitOnce, .removeSession]

/-- Run a sequence of actions against the shared one-shot flag and count how
many times the exit event is actually emitted.  The atomic swap makes every
concurrent execution equivalent to some sequential interleaving. -/
def emitsFrom : List Action → Bool → Nat
  | [], _ => 0
  | .emitExitOnce :: rest, flag =>
    let r := emit_pty_exit_once flag
    (if r.1 then 1 else 0) + emitsFrom rest r.2
  | .emitOutput :: rest, flag => emitsFrom rest flag
  | .removeSession :: rest, flag => emitsFrom rest flag
  | .waitChild :: rest, flag => emitsFrom rest flag

/-- `Interleave xs ys zs`: `zs` is an interleaving of the action sequences
`xs` and `ys` (each thread's actions stay in program order). -/
inductive Interleave : List Action → List Action → List Action → Prop
  | nil : Interleave [] [] []
  | left {xs ys zs : List Action} {a : Action} :
      Interleave xs ys zs → Interleave (a :: xs) ys (a :: zs)
  | right {xs ys zs : List Action} {a : Action} :
      Interleave xs ys zs → Interleave xs (a :: ys) (a :: zs)

theorem Interleave.perm {xs ys zs : List Action} (h : Interleave xs ys zs) :
    zs.Perm (xs ++ ys) := by
  induction h with
  | nil => exact List.Perm.refl []
  | left _ ih => exact ih.cons _
  | right _ ih => exact (ih.cons _).trans List.perm_middle.symm

theorem emitsFrom_true (tr : List Action) : emitsFrom tr true = 0 := by
  induction tr with
  | nil => rfl
  | cons a rest ih => cases a <;> simpa [emitsFrom, emit_pty_exit_once] using ih

theorem emitsFrom_false_of_mem {tr : List Action} (h : Action.emitExitOnce ∈ tr) :
    emitsFrom tr false = 1 := by
  induction tr with
  | nil => cases h
  | cons a rest ih =>
    cases a with
    | emitExitOnce =>
      simp [emitsFrom, emit_pty_exit_once, emitsFrom_true]
    | emitOutput =>
      have : Action.emitExitOnce ∈ rest := by simpa using h
      simpa [emitsFrom] using ih this
    | removeSession =>
      have : Action.emitExitOnce ∈ rest := by simpa using h
      simpa [emitsFrom] using ih this
    | waitChild =>
      have : Action.emitExitOnce ∈ rest := by simpa using h
      simpa [emitsFrom] using ih this

/-! ## Process termination (pty.rs:44-62) -/

inductive Sig
  | sigterm
  | sigkill
deriving DecidableEq

/-- A signal-delivery attempt: `kill -SIG pid` issued `delayMs` milliseconds
after the kill request. -/
structure SignalAction where
  delayMs : Nat
  sig : Sig
  pid : Nat
deriving DecidableEq

/-- Body of the detached timer thread (pty.rs:56-61): sleep 750 ms, then send
SIGKILL unconditionally.  `childExited` records whether the child process has
already exited when the timer fires; the source never consults it (the
thread's only statements are the sleep and the `kill -KILL`). -/
def killTimerBody (pid : Nat) (childExited : Bool) : List SignalAction :=
  [⟨750, .sigkill, pid⟩]

/-- terminate_pid (pty.rs:44-62): nothing for pid 0, otherwise SIGTERM
immediately and the detached SIGKILL timer. -/
def terminate_pid (pid : Nat) (childExited : Bool) : List SignalAction :=
  if pid = 0 then []
  else ⟨0, .sigterm, pid⟩ :: killTimerBody pid childExited

/-! ## Public session operations -/

/-- write_to_pty (pty.rs:211-229): look up the session (`SessionNotFound` if
absent), `write_all` the payload, then `flush`; either failure is an
`IoError`.  The registry is returned alongside the result; a successful
`write_all` appends the whole payload to the writer's accepted-byte buffer
(in-place mutation of the session). -/
def write_to_pty (reg : Registry) (id : String) (data : List Nat) :
    Except PtyError Unit × Registry :=
  match lookupReg reg id with
  | none => (.error .SessionNotFound, reg)
  | some s =>
    if s.writeOk then
      let s2 := { s with buffer := s.buffer ++ data }
      if s.flushOk then (.ok (), updateReg reg id s2)
      else (.error .IoError, updateReg reg id s2)
    else (.error .IoError, reg)

/-- resize_pty (pty.rs:233-252): look up the session (`SessionNotFound` if
absent), resize the master (`IoError` on failure).  The registry is never
mutated. -/
def resize_pty (reg : Registry) (id : String) : Except PtyError Unit × Registry :=
  match lookupReg reg id with
  | none => (.error .SessionNotFound, reg)
  | some s => (if s.resizeOk then .ok () else .error .IoError, reg)

/-- Outcome of a kill request: the caller-visible result, the registry after
the call, and the signal-delivery attempts it triggers. -/
structure KillOutcome where
  result : Except PtyError Unit
  registry : Registry
  signals : List SignalAction

/-- kill_pty (pty.rs:256-275): under a single acquisition of the registry
lock, read the recorded pid (0 if absent) and remove the entry; if nothing
was removed return `SessionNotFound`, otherwise call `terminate_pid`. -/
def kill_pty (reg : Registry) (id : String) (childExited : Bool) : KillOutcome :=
  let pid := ((lookupReg reg id).map PtySession.child_id).getD 0
  let removed := (lookupReg reg id).isSome
  let reg2 := removeReg reg id
  if removed then
    { result := .ok (), registry := reg2, signals := terminate_pid pid childExited }
  else
    { result := .error .SessionNotFound, registry := reg2, signals := [] }

/-- get_cwd (pty.rs:281-299): look up the session (`SessionNotFound` if
absent); if the recorded pid is positive try the live lookup
(get_process_cwd, pty.rs:304-333, modeled by the oracle `procCwd`); on
lookup failure or pid 0 fall back to the cwd stored at spawn. -/
def get_cwd (procCwd : Nat → Option String) (reg : Registry) (id : String) :
    Except PtyError String :=
  match lookupReg reg id with
  | none => .error .SessionNotFound
  | some s =>
    if s.child_id > 0 then
      match procCwd s.child_id with
      | some real => .ok real
      | none => .ok s.cwd
    else .ok s.cwd

/-! ## Registry effects of every code path that touches the registry -/

/-- Every operation in pty.rs that runs against the registry. -/
inductive PtyOp
  | spawnInsert (id : String) (s : PtySession)
  | readerCleanup (id : String)
  | waiterCleanup (id : String)
  | killOp (id : String) (childExited : Bool)
  | writeOp (id : String) (data : List Nat)
  | resizeOp (id : String)
  | getCwdOp (id : String)

/-- Registry effect of each operation, from the source: spawn inserts
(pty.rs:133-137), the reader thread removes after its loop ends
(pty.rs:176-178), the waiter thread removes after `wait` returns
(pty.rs:190-192), kill removes (pty.rs:258-266), and write/resize/get_cwd
never add or remove an entry. -/
def applyOp (reg : Registry) : PtyOp → Registry
  | .spawnInsert id s => (id, s) :: removeReg reg id
  | .readerCleanup id => removeReg reg id
  | .waiterCleanup id => removeReg reg id
  | .killOp id e => (kill_pty reg id e).registry
  | .writeOp id data => (write_to_pty reg id data).2
  | .resizeOp id => (resize_pty reg id).2
  | .getCwdOp _ => reg

/-- Whether an operation is one of the three removal paths for `id`. -/
def removesId (op : PtyOp) (id : String) : Bool :=
  match op with
  | .readerCleanup j => j = id
  | .waiterCleanup j => j = id
  | .killOp j _ => j = id
  | _ => false

/-- Whether an operation inserts `id` (only spawn does). -/
def insertsId (op : PtyOp) (id : String) : Bool :=
  match op with
  | .spawnInsert j _ => j = id
  | _ => false

/-! ## Directory listing for autocomplete (pty.rs:363-441) -/

/-- Path and file names are modeled as character lists. -/
abbrev Name := List Char

/-- `s.starts_with('.')` on a string / path component. -/
def startsWithDot : Name → Bool
  | [] => false
  | c :: _ => c == '.'

/-- `path.trim_end_matches('/')` (pty.rs:368). -/
def trimTrailingSlashes (p : Name) : Name :=
  (p.reverse.dropWhile (fun c => c == '/')).reverse

/-- `typed.rsplit('/').next()` (pty.rs:369): the segment after the last
separator (the whole string when no separator occurs). -/
def lastComponent (p : Name) : Name :=
  (p.reverse.takeWhile (fun c => c != '/')).reverse

/-- `show_hidden` (pty.rs:368-370): the last component of the typed path,
after trimming trailing separators, begins with a dot. -/
def showHiddenOf (path : Name) : Bool :=
  startsWithDot (lastComponent (trimTrailingSlashes path))

/-- Errors of list_directory (the source returns strings; we model the two
error classes: "Cannot resolve home directory" and "Failed to read
directory"). -/
inductive DirError
  | homeNotResolved
  | readDirFailed
deriving DecidableEq

/-- State of the resolved target path on the filesystem, as observed by
`exists` / `is_dir` / `read_dir` (pty.rs:379-418): each raw entry is a
(file_name, is_dir) pair as produced by `read_dir`. -/
inductive FsTarget
  | missing
  | nonDir
  | dirUnreadable
  | readableDir (entries : List (Name × Bool))

/-- `home.join(stripped.trim_start_matches('/'))` at the precision the claims
need: appending a relative component under the home directory. -/
def joinPath (h rel : Name) : Name :=
  if rel.isEmpty then h else h ++ '/' :: rel

/-- Target resolution (pty.rs:372-377): a leading `~` is replaced by the home
directory (error when the home directory cannot be resolved); any other path
is used as typed. -/
def resolveTarget (home : Option Name) (path : Name) : Except DirError Name :=
  match path with
  | c :: rest =>
    if c = '~' then
      match home with
      | none => .error .homeNotResolved
      | some h => .ok (joinPath h (rest.dropWhile (fun x => x == '/')))
    else .ok (c :: rest)
  | [] => .ok []

/-- Internal entry record (pty.rs:387-392). -/
structure DirEntry where
  name : Name
  name_lower : Name
  path : Name
  is_dir : Bool
deriving DecidableEq

/-- Output entry: the `{name, path, isDir}` JSON object (pty.rs:427-436). -/
structure DirEntryOut where
  name : Name
  path : Name
  isDir : Bool
deriving DecidableEq

/-- Lexicographic comparison by code point: Rust's `Ord` on `String` (UTF-8
byte order coincides with code-point order). -/
def cmpName : Name → Name → Ordering
  | [], [] => .eq
  | [], _ :: _ => .lt
  | _ :: _, [] => .gt
  | a :: as, b :: bs =>
    match compare a.toNat b.toNat with
    | .eq => cmpName as bs
    | o => o

/-- The sort comparator (pty.rs:421-425): directories first, then by
lowercased name. -/
def entryCmp (a b : DirEntry) : Ordering :=
  match a.is_dir, b.is_dir with
  | true, false => .lt
  | false, true => .gt
  | _, _ => cmpName a.name_lower b.name_lower

/-- `a` may precede `b` in the sorted output. -/
def entryLE (a b : DirEntry) : Bool := decide (entryCmp a b ≠ Ordering.gt)

/-- The hidden-entry filter (pty.rs:400-402): an entry is kept unless hidden
entries are suppressed and its name starts with a dot. -/
def keepEntry (showHidden : Bool) (name : Name) : Bool :=
  !(!showHidden && startsWithDot name)

/-- Builds the internal record for one raw read_dir entry (pty.rs:398-412):
`entry.path()` is the target joined with the file name. -/
def mkDirEntry (target : Name) (nd : Name × Bool) : DirEntry :=
  { name := nd.1
    name_lower := nd.1.map Char.toLower
    path := target ++ '/' :: nd.1
    is_dir := nd.2 }

/-- Projection to the output object (pty.rs:427-436). -/
def toOut (e : DirEntry) : DirEntryOut :=
  { name := e.name, path := e.path, isDir := e.is_dir }

/-- The output entry produced for one raw read_dir entry. -/
def mkOut (target : Name) (nd : Name × Bool) : DirEntryOut :=
  toOut (mkDirEntry target nd)

/-- The entry list built from a readable directory: filter hidden names,
build records, sort with the comparator, project to output objects
(pty.rs:394-436).  The source's stable comparator sort is modeled by
`List.mergeSort` with `entryLE`. -/
def dirListing (showHidden : Bool) (target : Name) (raw : List (Name × Bool)) :
    List DirEntryOut :=
  let entries := (raw.filter (fun nd => keepEntry showHidden nd.1)).map (mkDirEntry target)
  (entries.mergeSort entryLE).map toOut

/-- list_directory (pty.rs:363-441): compute the hidden-entry policy from the
typed path, resolve `~`, return an empty listing for missing or non-directory
targets, an error for an unreadable directory, and the filtered sorted
listing otherwise. -/
def list_directory (home : Option Name) (fs : Name → FsTarget) (path : Name) :
    Except DirError (List DirEntryOut × Name) :=
  let sh := showHiddenOf path
  match resolveTarget home path with
  | .error e => .error e
  | .ok target =>
    match fs target with
    | .missing => .ok ([], path)
    | .nonDir => .ok ([], path)
    | .dirUnreadable => .error .readDirFailed
    | .readableDir raw => .ok (dirListing sh target raw, target)

/-! ## Order properties of the sort comparator -/

theorem cmpName_cons (a b : Char) (as bs : Name) :
    cmpName (a :: as) (b :: bs) =
      match compare a.toNat b.toNat with
      | .eq => cmpName as bs
      | o => o := rfl

theorem cmpName_total : ∀ a b : Name, cmpName a b ≠ .gt ∨ cmpName b a ≠ .gt := by
  intro a
  induction a with
  | nil =>
    intro b
    cases b <;> simp [cmpName]
  | cons x as ih =>
    intro b
    cases b with
    | nil => right; simp [cmpName]
    | cons y bs =>
      rcases hxy : compare x.toNat y.toNat with hc | hc | hc
      · left
        rw [cmpName_cons, hxy]
        simp
      · have hyx : compare y.toNat x.toNat = .eq := by
          rw [Nat.compare_eq_eq] at hxy ⊢
          exact hxy.symm
        rcases ih bs with h | h
        · left; rwa [cmpName_cons, hxy]
        · right; rwa [cmpName_cons, hyx]
      · have hyx : compare y.toNat x.toNat = .lt := by
          rw [Nat.compare_eq_gt] at hxy
          rw [Nat.compare_eq_lt]
          exact hxy
        right
        rw [cmpName_cons, hyx]
        simp

theorem cmpName_trans :
    ∀ a b c : Name, cmpName a b ≠ .gt → cmpName b c ≠ .gt → cmpName a c ≠ .gt := by
  intro a
  induction a with
  | nil =>
    intro b c _ _
    cases c <;> simp [cmpName]
  | cons x as ih =>
    intro b c h1 h2
    cases b with
    | nil => simp [cmpName] at h1
    | cons y bs =>
      cases c with
      | nil => simp [cmpName] at h2
      | cons z cs =>
        rw [cmpName_cons] at h1 h2 ⊢
        rcases hxy : compare x.toNat y.toNat with hc | hc | hc <;> rw [hxy] at h1
        · rcases hyz : compare y.toNat z.toNat with hd | hd | hd <;> rw [hyz] at h2
          · have : compare x.toNat z.toNat = .lt := by
              rw [Nat.compare_eq_lt] at hxy hyz ⊢
              omega
            rw [this]; simp
          · have : compare x.toNat z.toNat = .lt := by
              rw [Nat.compare_eq_lt] at hxy ⊢
              rw [Nat.compare_eq_eq] at hyz
              omega
            rw [this]; simp
          · exact absurd rfl h2
        · rcases hyz : compare y.toNat z.toNat with hd | hd | hd <;> rw [hyz] at h2
          · have : compare x.toNat z.toNat = .lt := by
              rw [Nat.compare_eq_lt] at hyz ⊢
              rw [Nat.compare_eq_eq] at hxy
              omega
            rw [this]; simp
          · have : compare x.toNat z.toNat = .eq := by
              rw [Nat.compare_eq_eq] at hxy hyz ⊢
              omega
            rw [this]
            exact ih bs cs h1 h2
          · exact absurd rfl h2
        · exact absurd rfl h1

theorem entryLE_trans (a b c : DirEntry) :
    entryLE a b → entryLE b c → entryLE a c := by
  unfold entryLE entryCmp
  rcases ha : a.is_dir <;> rcases hb : b.is_dir <;> rcases hc : c.is_dir <;>
    simp only [ha, hb, hc, decide_eq_true_eq, ne_eq]
  · exact cmpName_trans _ _ _
  · intro _ h2
    exact absurd trivial h2
  · intro h1
    exact absurd trivial h1
  · intro h1
    exact absurd trivial h1
  · intro _ _
    decide
  · intro _ h2
    exact absurd trivial h2
  · intro _ _
    decide
  · exact cmpName_trans _ _ _

theorem entryLE_total (a b : DirEntry) : entryLE a b || entryLE b a := by
  unfold entryLE entryCmp
  rcases ha : a.is_dir <;> rcases hb : b.is_dir <;>
    simp only [ha, hb, Bool.or_eq_true, decide_eq_true_eq, ne_eq]
  · rcases cmpName_total a.name_lower b.name_lower with h | h
    · exact Or.inl h
    · exact Or.inr h
  · right
    decide
  · left
    decide
  · rcases cmpName_total a.name_lower b.name_lower with h | h
    · exact Or.inl h
    · exact Or.inr h

/-! ## Claim theorems -/

/-- C1: every interleaving of the reader thread's terminal actions and the
waiter thread's body contains two attempts to emit the exit event (both
threads attempt it), yet exactly one emission occurs: the shared one-shot
flag, atomically checked-and-set by emit_pty_exit_once, deduplicates them —
never zero, never more than one. -/
theorem exit_event_exactly_once (tr : List Action)
    (h : Interleave readerThreadFinal waiterThreadBody tr) :
    tr.count .emitExitOnce = 2 ∧ emitsFrom tr false = 1 := by
  have hperm := h.perm
  constructor
  · rw [hperm.count_eq]
    decide
  · refine emitsFrom_false_of_mem (hperm.mem_iff.mpr ?_)
    decide

/-- Witness for C1 at the concrete interleaving where the reader finishes
first. -/
theorem exit_event_exactly_once_witness :
    ([Action.emitExitOnce, Action.removeSession, Action.waitChild,
      Action.emitExitOnce, Action.removeSession].count Action.emitExitOnce = 2) ∧
    emitsFrom [Action.emitExitOnce, Action.removeSession, Action.waitChild,
      Action.emitExitOnce, Action.removeSession] false = 1 :=
  exit_event_exactly_once _
    (Interleave.left (Interleave.left (Interleave.right (Interleave.right
      (Interleave.right Interleave.nil)))))

/-- C2: the resolved shell is always a member of the fixed allow-list: it
equals the SHELL value exactly when that value is allow-listed, and is
/bin/zsh in every other case, including unset SHELL. -/
theorem select_shell_allowlisted (shellEnv : Option String) :
    select_shell shellEnv ∈ shellAllowList ∧
    (∀ v, shellEnv = some v →
      (v ∈ shellAllowList → select_shell shellEnv = v) ∧
      (v ∉ shellAllowList → select_shell shellEnv = "/bin/zsh")) ∧
    (shellEnv = none → select_shell shellEnv = "/bin/zsh") := by
  cases shellEnv with
  | none =>
    refine ⟨by simp [select_shell, shellAllowList], ?_, fun _ => rfl⟩
    intro v hv
    cases hv
  | some v =>
    have hmem : v ∈ shellAllowList ↔ (v = "/bin/zsh" ∨ v = "/bin/bash" ∨ v = "/bin/sh") := by
      simp [shellAllowList]
    by_cases h : v = "/bin/zsh" ∨ v = "/bin/bash" ∨ v = "/bin/sh"
    · have hs : select_shell (some v) = v := by simp [select_shell, h]
      refine ⟨by rw [hs, hmem]; exact h, ?_, by intro hc; cases hc⟩
      intro w hw
      injection hw with hw
      subst hw
      exact ⟨fun _ => hs, fun hn => absurd (hmem.mpr h) hn⟩
    · have hs : select_shell (some v) = "/bin/zsh" := by simp [select_shell, h]
      refine ⟨by rw [hs]; simp [shellAllowList], ?_, by intro hc; cases hc⟩
      intro w hw
      injection hw with hw
      subst hw
      exact ⟨fun hin => absurd (hmem.mp hin) h, fun _ => hs⟩

/-- Witness for C2 at a non-allow-listed SHELL value. -/
theorem select_shell_allowlisted_witness :
    select_shell (some "/usr/bin/fish") ∈ shellAllowList ∧
    (∀ v, some "/usr/bin/fish" = some v →
      (v ∈ shellAllowList → select_shell (some "/usr/bin/fish") = v) ∧
      (v ∉ shellAllowList → select_shell (some "/usr/bin/fish") = "/bin/zsh")) ∧
    (some "/usr/bin/fish" = none → select_shell (some "/usr/bin/fish") = "/bin/zsh") :=
  select_shell_allowlisted (some "/usr/bin/fish")

/-- C3: kill succeeds iff the id is registered at the moment of the call, the
removal happens in the same atomic registry step as the lookup, and a second
kill on the same id then reports SessionNotFound: exactly one success. -/
theorem kill_exactly_one_success (reg : Registry) (id : String) (e : Bool) :
    ((kill_pty reg id e).result = .ok () ↔ isRegistered reg id = true) ∧
    (kill_pty reg id e).registry = removeReg reg id ∧
    (isRegistered reg id = true →
      (kill_pty ((kill_pty reg id e).registry) id e).result = .error .SessionNotFound) := by
  cases hl : lookupReg reg id with
  | none =>
    refine ⟨?_, by simp [kill_pty, hl], ?_⟩
    · constructor
      · intro hok
        simp [kill_pty, hl] at hok
      · intro hr
        simp [isRegistered, hl] at hr
    · intro hr
      simp [isRegistered, hl] at hr
  | some s =>
    refine ⟨by simp [kill_pty, hl, isRegistered], by simp [kill_pty, hl], ?_⟩
    intro _
    simp [kill_pty, hl, lookupReg_removeReg_self]

/-- A sample registered session used by the concrete witnesses. -/
def sessW : PtySession := ⟨7, "/home/u", true, true, true, []⟩

/-- Witness for C3 on a one-session registry. -/
theorem kill_exactly_one_success_witness :
    ((kill_pty [("a", sessW)] "a" false).result = .ok () ↔
      isRegistered [("a", sessW)] "a" = true) ∧
    (kill_pty [("a", sessW)] "a" false).registry = removeReg [("a", sessW)] "a" ∧
    (isRegistered [("a", sessW)] "a" = true →
      (kill_pty ((kill_pty [("a", sessW)] "a" false).registry) "a" false).result =
        .error .SessionNotFound) :=
  kill_exactly_one_success [("a", sessW)] "a" false

/-- C5 counterexample: the SIGKILL scheduled by the detached timer is sent
after the grace period even when the child has already exited within it —
the timer is never cancelled or superseded, refuting the claim at pid 42. -/
theorem sigkill_not_cancelled :
    (⟨750, Sig.sigkill, 42⟩ : SignalAction) ∈ terminate_pid 42 true := by
  simp [terminate_pid, killTimerBody]

/-- C5 amended: on every successful kill of a nonzero recorded pid, SIGTERM
is sent immediately and SIGKILL is sent after the 750 ms grace period
unconditionally — the same signals whether or not the process has exited. -/
theorem terminate_pid_two_phase (pid : Nat) (childExited : Bool) (h : pid ≠ 0) :
    terminate_pid pid childExited =
      [⟨0, Sig.sigterm, pid⟩, ⟨750, Sig.sigkill, pid⟩] ∧
    terminate_pid pid childExited = terminate_pid pid (!childExited) := by
  constructor <;> simp [terminate_pid, killTimerBody, h]

/-- Witness for the amended C5 at pid 42 with the child already exited. -/
theorem terminate_pid_two_phase_witness :
    terminate_pid 42 true = [⟨0, Sig.sigterm, 42⟩, ⟨750, Sig.sigkill, 42⟩] ∧
    terminate_pid 42 true = terminate_pid 42 (!true) :=
  terminate_pid_two_phase 42 true (by decide)

/-- C6: write fails with SessionNotFound exactly for unregistered ids; for a
registered session the whole payload is written and then flushed (IoError
when either step fails and those are the only errors), any outcome leaves the
registration state unchanged, and success means the writer accepted the
entire payload — no partial-write result exists. -/
theorem write_all_or_error (reg : Registry) (id : String) (data : List Nat) :
    ((write_to_pty reg id data).1 = .error .SessionNotFound ↔
      isRegistered reg id = false) ∧
    isRegistered (write_to_pty reg id data).2 id = isRegistered reg id ∧
    (∀ s, lookupReg reg id = some s →
      ((write_to_pty reg id data).1 = .ok () ↔ s.writeOk = true ∧ s.flushOk = true) ∧
      ((write_to_pty reg id data).1 = .ok () →
        lookupReg (write_to_pty reg id data).2 id =
          some { s with buffer := s.buffer ++ data }) ∧
      ((write_to_pty reg id data).1 ≠ .ok () →
        (write_to_pty reg id data).1 = .error .IoError)) := by
  cases hl : lookupReg reg id with
  | none =>
    refine ⟨by simp [write_to_pty, hl, isRegistered], by simp [write_to_pty, hl], ?_⟩
    intro s hs
    exact Option.noConfusion hs
  | some s =>
    have hreg : isRegistered reg id = true := by simp [isRegistered, hl]
    cases hw : s.writeOk with
    | false =>
      have hr : write_to_pty reg id data = (.error .IoError, reg) := by
        simp [write_to_pty, hl, hw]
      refine ⟨by rw [hr]; simp [hreg], by rw [hr], ?_⟩
      intro s' hs'
      injection hs' with hs'
      subst hs'
      rw [hr]
      exact ⟨by simp [hw], by simp, fun _ => rfl⟩
    | true =>
      cases hf : s.flushOk with
      | false =>
        have hr : write_to_pty reg id data =
            (.error .IoError, updateReg reg id { s with buffer := s.buffer ++ data }) := by
          simp [write_to_pty, hl, hw, hf]
        refine ⟨by rw [hr]; simp [hreg], ?_, ?_⟩
        · rw [hr]
          exact isRegistered_updateReg reg id id _
        · intro s' hs'
          injection hs' with hs'
          subst hs'
          rw [hr]
          exact ⟨by simp [hw, hf], by simp, fun _ => rfl⟩
      | true =>
        have hr : write_to_pty reg id data =
            (.ok (), updateReg reg id { s with buffer := s.buffer ++ data }) := by
          simp [write_to_pty, hl, hw, hf]
        refine ⟨by rw [hr]; simp [hreg], ?_, ?_⟩
        · rw [hr]
          exact isRegistered_updateReg reg id id _
        · intro s' hs'
          injection hs' with hs'
          subst hs'
          rw [hr]
          refine ⟨by simp [hw, hf], ?_, fun hne => absurd rfl hne⟩
          intro _
          rw [lookupReg_updateReg_self, hl]
          rfl

/-- Witness for C6 on a registry holding one healthy session. -/
theorem write_all_or_error_witness :
    ((write_to_pty [("w", sessW)] "w" [104, 105]).1 = .error .SessionNotFound ↔
      isRegistered [("w", sessW)] "w" = false) ∧
    isRegistered (write_to_pty [("w", sessW)] "w" [104, 105]).2 "w" =
      isRegistered [("w", sessW)] "w" ∧
    (∀ s, lookupReg [("w", sessW)] "w" = some s →
      ((write_to_pty [("w", sessW)] "w" [104, 105]).1 = .ok () ↔
        s.writeOk = true ∧ s.flushOk = true) ∧
      ((write_to_pty [("w", sessW)] "w" [104, 105]).1 = .ok () →
        lookupReg (write_to_pty [("w", sessW)] "w" [104, 105]).2 "w" =
          some { s with buffer := s.buffer ++ [104, 105] }) ∧
      ((write_to_pty [("w", sessW)] "w" [104, 105]).1 ≠ .ok () →
        (write_to_pty [("w", sessW)] "w" [104, 105]).1 = .error .IoError)) :=
  write_all_or_error [("w", sessW)] "w" [104, 105]

/-- C7: get_cwd succeeds for every registered session — the live lookup
result when the stored pid is nonzero and the lookup succeeds, the stored
spawn-time cwd otherwise — and its only error, for unregistered ids, is
SessionNotFound. -/
theorem get_cwd_best_effort (procCwd : Nat → Option String) (reg : Registry)
    (id : String) :
    ((∃ err, get_cwd procCwd reg id = .error err) ↔ isRegistered reg id = false) ∧
    (∀ err, get_cwd procCwd reg id = .error err → err = .SessionNotFound) ∧
    (∀ s, lookupReg reg id = some s →
      (∀ r, 0 < s.child_id → procCwd s.child_id = some r →
        get_cwd procCwd reg id = .ok r) ∧
      (s.child_id = 0 → get_cwd procCwd reg id = .ok s.cwd) ∧
      (procCwd s.child_id = none → get_cwd procCwd reg id = .ok s.cwd)) := by
  cases hl : lookupReg reg id with
  | none =>
    refine ⟨by simp [get_cwd, hl, isRegistered], ?_, ?_⟩
    · intro err h
      simp only [get_cwd, hl] at h
      injection h with h
      exact h.symm
    · intro s hs
      exact Option.noConfusion hs
  | some s =>
    have hval : ∃ v, get_cwd procCwd reg id = .ok v := by
      by_cases hp : 0 < s.child_id
      · cases hc : procCwd s.child_id with
        | none => exact ⟨s.cwd, by simp [get_cwd, hl, hp, hc]⟩
        | some r => exact ⟨r, by simp [get_cwd, hl, hp, hc]⟩
      · exact ⟨s.cwd, by simp [get_cwd, hl, hp]⟩
    obtain ⟨v, hv⟩ := hval
    refine ⟨by rw [hv]; simp [isRegistered, hl], ?_, ?_⟩
    · intro err h
      rw [hv] at h
      cases h
    · intro s' hs'
      injection hs' with hs'
      subst hs'
      refine ⟨?_, ?_, ?_⟩
      · intro r hp hc
        simp [get_cwd, hl, hp, hc]
      · intro h0
        simp [get_cwd, hl, h0]
      · intro hc
        by_cases hp : 0 < s.child_id
        · simp [get_cwd, hl, hp, hc]
        · simp [get_cwd, hl, hp]

/-- Witness for C7 with a live-lookup oracle that always answers. -/
theorem get_cwd_best_effort_witness :
    ((∃ err, get_cwd (fun _ => some "/live") [("c", sessW)] "c" = .error err) ↔
      isRegistered [("c", sessW)] "c" = false) ∧
    (∀ err, get_cwd (fun _ => some "/live") [("c", sessW)] "c" = .error err →
      err = .SessionNotFound) ∧
    (∀ s, lookupReg [("c", sessW)] "c" = some s →
      (∀ r, 0 < s.child_id → (fun (_ : Nat) => some "/live") s.child_id = some r →
        get_cwd (fun _ => some "/live") [("c", sessW)] "c" = .ok r) ∧
      (s.child_id = 0 → get_cwd (fun _ => some "/live") [("c", sessW)] "c" = .ok s.cwd) ∧
      ((fun (_ : Nat) => some "/live") s.child_id = none →
        get_cwd (fun _ => some "/live") [("c", sessW)] "c" = .ok s.cwd)) :=
  get_cwd_best_effort (fun _ => some "/live") [("c", sessW)] "c"

/-- A session whose child pid was unavailable at spawn. -/
def sessZero : PtySession := ⟨0, "/", true, true, true, []⟩

/-- C10: killing a session whose recorded child pid is 0 still succeeds and
removes the record, but no termination signal of any kind is sent. -/
theorem kill_pid_zero_no_signal (reg : Registry) (id : String) (s : PtySession)
    (e : Bool) (hl : lookupReg reg id = some s) (h0 : s.child_id = 0) :
    (kill_pty reg id e).result = .ok () ∧
    isRegistered (kill_pty reg id e).registry id = false ∧
    (kill_pty reg id e).signals = [] := by
  refine ⟨?_, ?_, ?_⟩ <;>
    simp [kill_pty, hl, h0, terminate_pid, isRegistered, lookupReg_removeReg_self]

/-- Witness for C10 on a registry holding one pid-0 session. -/
theorem kill_pid_zero_no_signal_witness :
    (kill_pty [("z", sessZero)] "z" false).result = .ok () ∧
    isRegistered (kill_pty [("z", sessZero)] "z" false).registry "z" = false ∧
    (kill_pty [("z", sessZero)] "z" false).signals = [] :=
  kill_pid_zero_no_signal [("z", sessZero)] "z" sessZero false rfl rfl

theorem kill_pty_registry (reg : Registry) (id : String) (e : Bool) :
    (kill_pty reg id e).registry = removeReg reg id := by
  cases hl : lookupReg reg id <;> simp [kill_pty, hl]

theorem write_to_pty_isRegistered (reg : Registry) (j id : String) (data : List Nat) :
    isRegistered (write_to_pty reg j data).2 id = isRegistered reg id := by
  cases hl : lookupReg reg j with
  | none => simp [write_to_pty, hl]
  | some s =>
    cases hw : s.writeOk with
    | false => simp [write_to_pty, hl, hw]
    | true =>
      cases hf : s.flushOk with
      | false => simp [write_to_pty, hl, hw, hf, isRegistered_updateReg]
      | true => simp [write_to_pty, hl, hw, hf, isRegistered_updateReg]

theorem resize_pty_registry (reg : Registry) (id : String) :
    (resize_pty reg id).2 = reg := by
  cases hl : lookupReg reg id <;> simp [resize_pty, hl]

/-- C4 counterexample: the waiter thread (pty.rs:185-193) is a third removal
path the claim excludes — its body contains a registry removal, and running
that removal on a registry holding the session deletes the record. -/
theorem waiter_thread_also_removes :
    Action.removeSession ∈ waiterThreadBody ∧
    isRegistered [("s", sessW)] "s" = true ∧
    isRegistered (applyOp [("s", sessW)] (.waiterCleanup "s")) "s" = false := by
  refine ⟨by simp [waiterThreadBody], by decide, by decide⟩

/-- C4 amended: for each session id, spawn's insert is the only operation
that adds the record, and exactly three code paths remove it — the reader
thread's cleanup, the waiter thread's cleanup, and kill; every other
operation leaves the registration state of that id unchanged, so the record
is removed by whichever of the three paths runs first (the later ones are
no-ops on membership). -/
theorem registry_change_paths (reg : Registry) (id : String) (op : PtyOp) :
    (removesId op id = true → isRegistered (applyOp reg op) id = false) ∧
    (insertsId op id = true → isRegistered (applyOp reg op) id = true) ∧
    (removesId op id = false → insertsId op id = false →
      isRegistered (applyOp reg op) id = isRegistered reg id) := by
  cases op with
  | spawnInsert j s =>
    refine ⟨fun h => by simp [removesId] at h, ?_, ?_⟩
    · intro h
      simp only [insertsId, decide_eq_true_eq] at h
      simp [applyOp, isRegistered, lookupReg_cons, h]
    · intro _ h
      simp only [insertsId] at h
      have hj : j ≠ id := of_decide_eq_false h
      simp [applyOp, isRegistered, lookupReg_cons, hj, lookupReg_removeReg_ne reg id j hj]
  | readerCleanup j =>
    refine ⟨?_, fun h => by simp [insertsId] at h, ?_⟩
    · intro h
      simp only [removesId, decide_eq_true_eq] at h
      subst h
      simp [applyOp, isRegistered, lookupReg_removeReg_self]
    · intro h _
      simp only [removesId] at h
      have hj : j ≠ id := of_decide_eq_false h
      simp [applyOp, isRegistered, lookupReg_removeReg_ne reg id j hj]
  | waiterCleanup j =>
    refine ⟨?_, fun h => by simp [insertsId] at h, ?_⟩
    · intro h
      simp only [removesId, decide_eq_true_eq] at h
      subst h
      simp [applyOp, isRegistered, lookupReg_removeReg_self]
    · intro h _
      simp only [removesId] at h
      have hj : j ≠ id := of_decide_eq_false h
      simp [applyOp, isRegistered, lookupReg_removeReg_ne reg id j hj]
  | killOp j e =>
    refine ⟨?_, fun h => by simp [insertsId] at h, ?_⟩
    · intro h
      simp only [removesId, decide_eq_true_eq] at h
      subst h
      simp [applyOp, kill_pty_registry, isRegistered, lookupReg_removeReg_self]
    · intro h _
      simp only [removesId] at h
      have hj : j ≠ id := of_decide_eq_false h
      simp [applyOp, kill_pty_registry, isRegistered, lookupReg_removeReg_ne reg id j hj]
  | writeOp j data =>
    exact ⟨fun h => by simp [removesId] at h, fun h => by simp [insertsId] at h,
      fun _ _ => by simp [applyOp, write_to_pty_isRegistered]⟩
  | resizeOp j =>
    exact ⟨fun h => by simp [removesId] at h, fun h => by simp [insertsId] at h,
      fun _ _ => by simp [applyOp, resize_pty_registry]⟩
  | getCwdOp j =>
    exact ⟨fun h => by simp [removesId] at h, fun h => by simp [insertsId] at h,
      fun _ _ => rfl⟩

/-- Witness for the amended C4 at the kill path on a one-session registry. -/
theorem registry_change_paths_witness :
    (removesId (.killOp "s" false) "s" = true →
      isRegistered (applyOp [("s", sessW)] (.killOp "s" false)) "s" = false) ∧
    (insertsId (.killOp "s" false) "s" = true →
      isRegistered (applyOp [("s", sessW)] (.killOp "s" false)) "s" = true) ∧
    (removesId (.killOp "s" false) "s" = false →
      insertsId (.killOp "s" false) "s" = false →
      isRegistered (applyOp [("s", sessW)] (.killOp "s" false)) "s" =
        isRegistered [("s", sessW)] "s") :=
  registry_change_paths [("s", sessW)] "s" (.killOp "s" false)

/-! ## Directory-listing claim proofs -/

theorem resolveTarget_error (home : Option Name) (path : Name) (e : DirError)
    (h : resolveTarget home path = .error e) :
    e = .homeNotResolved ∧ home = none := by
  cases path with
  | nil => simp [resolveTarget] at h
  | cons c rest =>
    by_cases hc : c = '~'
    · cases home with
      | none =>
        simp [resolveTarget, hc] at h
        exact ⟨h.symm, rfl⟩
      | some hm => simp [resolveTarget, hc] at h
    · simp [resolveTarget, hc] at h

/-- C9 counterexample: with an unresolvable home directory the typed path
"~/x" makes list_directory fail, although under this filesystem no target
exists, none is a directory, and no directory read was attempted — an error
case beyond the claimed only-unreadable-existing-directory one. -/
theorem home_shorthand_error :
    list_directory none (fun _ => FsTarget.missing) ['~', '/', 'x'] =
      .error .homeNotResolved := rfl

/-- C9 amended: list_directory fails exactly when either the typed path
begins with the home shorthand and the home directory cannot be resolved, or
the resolved target is an existing directory whose read fails; a missing or
non-directory target yields a successful empty listing echoing the typed
path. -/
theorem list_directory_error_conditions (home : Option Name) (fs : Name → FsTarget)
    (path : Name) :
    ((∃ e, list_directory home fs path = .error e) ↔
      resolveTarget home path = .error .homeNotResolved ∨
      (∃ t, resolveTarget home path = .ok t ∧ fs t = .dirUnreadable)) ∧
    (∀ t, resolveTarget home path = .ok t → fs t = .missing →
      list_directory home fs path = .ok ([], path)) ∧
    (∀ t, resolveTarget home path = .ok t → fs t = .nonDir →
      list_directory home fs path = .ok ([], path)) := by
  cases hres : resolveTarget home path with
  | error e =>
    obtain ⟨he, _⟩ := resolveTarget_error home path e hres
    subst he
    have hld : list_directory home fs path = .error .homeNotResolved := by
      simp [list_directory, hres]
    refine ⟨⟨fun _ => Or.inl rfl, fun _ => ⟨.homeNotResolved, hld⟩⟩, ?_, ?_⟩
    · intro t ht
      exact Except.noConfusion ht
    · intro t ht
      exact Except.noConfusion ht
  | ok target =>
    cases hfs : fs target with
    | missing =>
      have hld : list_directory home fs path = .ok ([], path) := by
        simp [list_directory, hres, hfs]
      refine ⟨⟨?_, ?_⟩, fun _ _ _ => hld, fun _ _ _ => hld⟩
      · rintro ⟨e, he⟩
        rw [hld] at he
        exact Except.noConfusion he
      · rintro (h | ⟨t, ht, hft⟩)
        · exact Except.noConfusion h
        · injection ht with ht
          subst ht
          rw [hfs] at hft
          exact FsTarget.noConfusion hft
    | nonDir =>
      have hld : list_directory home fs path = .ok ([], path) := by
        simp [list_directory, hres, hfs]
      refine ⟨⟨?_, ?_⟩, fun _ _ _ => hld, fun _ _ _ => hld⟩
      · rintro ⟨e, he⟩
        rw [hld] at he
        exact Except.noConfusion he
      · rintro (h | ⟨t, ht, hft⟩)
        · exact Except.noConfusion h
        · injection ht with ht
          subst ht
          rw [hfs] at hft
          exact FsTarget.noConfusion hft
    | dirUnreadable =>
      have hld : list_directory home fs path = .error .readDirFailed := by
        simp [list_directory, hres, hfs]
      refine ⟨⟨fun _ => Or.inr ⟨target, rfl, hfs⟩, fun _ => ⟨.readDirFailed, hld⟩⟩, ?_, ?_⟩
      · intro t ht hft
        injection ht with ht
        subst ht
        rw [hfs] at hft
        exact FsTarget.noConfusion hft
      · intro t ht hft
        injection ht with ht
        subst ht
        rw [hfs] at hft
        exact FsTarget.noConfusion hft
    | readableDir raw =>
      have hld : list_directory home fs path =
          .ok (dirListing (showHiddenOf path) target raw, target) := by
        simp [list_directory, hres, hfs]
      refine ⟨⟨?_, ?_⟩, ?_, ?_⟩
      · rintro ⟨e, he⟩
        rw [hld] at he
        exact Except.noConfusion he
      · rintro (h | ⟨t, ht, hft⟩)
        · exact Except.noConfusion h
        · injection ht with ht
          subst ht
          rw [hfs] at hft
          exact FsTarget.noConfusion hft
      · intro t ht hft
        injection ht with ht
        subst ht
        rw [hfs] at hft
        exact FsTarget.noConfusion hft
      · intro t ht hft
        injection ht with ht
        subst ht
        rw [hfs] at hft
        exact FsTarget.noConfusion hft

/-- Witness for the amended C9 on an unreadable root directory. -/
theorem list_directory_error_conditions_witness :
    ((∃ e, list_directory none (fun _ => FsTarget.dirUnreadable) ['/', 'd'] = .error e) ↔
      resolveTarget none ['/', 'd'] = .error .homeNotResolved ∨
      (∃ t, resolveTarget none ['/', 'd'] = .ok t ∧
        (fun (_ : Name) => FsTarget.dirUnreadable) t = .dirUnreadable)) ∧
    (∀ t, resolveTarget none ['/', 'd'] = .ok t →
      (fun (_ : Name) => FsTarget.dirUnreadable) t = .missing →
      list_directory none (fun _ => FsTarget.dirUnreadable) ['/', 'd'] =
        .ok ([], ['/', 'd'])) ∧
    (∀ t, resolveTarget none ['/', 'd'] = .ok t →
      (fun (_ : Name) => FsTarget.dirUnreadable) t = .nonDir →
      list_directory none (fun _ => FsTarget.dirUnreadable) ['/', 'd'] =
        .ok ([], ['/', 'd'])) :=
  list_directory_error_conditions none (fun _ => FsTarget.dirUnreadable) ['/', 'd']

/-- Ordering demanded of the output list: directories precede
non-directories, and a same-kind pair is in non-decreasing order of the
lowercased names. -/
def outLE (a b : DirEntryOut) : Prop :=
  (b.isDir = true → a.isDir = true) ∧
  (a.isDir = b.isDir →
    cmpName (a.name.map Char.toLower) (b.name.map Char.toLower) ≠ .gt)

theorem keepEntry_iff (sh : Bool) (n : Name) :
    keepEntry sh n = true ↔ (startsWithDot n = true → sh = true) := by
  cases sh <;> cases h : startsWithDot n <;> simp [keepEntry, h]

theorem dirListing_pairwise (sh : Bool) (target : Name) (raw : List (Name × Bool)) :
    (dirListing sh target raw).Pairwise outLE := by
  unfold dirListing
  rw [List.pairwise_map]
  have hsorted :=
    @List.sorted_mergeSort DirEntry entryLE (fun a b c => entryLE_trans a b c)
      (fun a b => entryLE_total a b)
      ((raw.filter (fun nd => keepEntry sh nd.1)).map (mkDirEntry target))
  have hlow : ∀ e ∈ ((raw.filter (fun nd => keepEntry sh nd.1)).map
      (mkDirEntry target)).mergeSort entryLE,
      e.name_lower = e.name.map Char.toLower := by
    intro e he
    rw [List.mem_mergeSort] at he
    obtain ⟨nd, _, rfl⟩ := List.mem_map.mp he
    rfl
  refine hsorted.imp_of_mem ?_
  intro a b ha hb hab
  have hne : entryCmp a b ≠ .gt := of_decide_eq_true hab
  constructor
  · intro hbd
    have hbd2 : b.is_dir = true := hbd
    by_cases had : a.is_dir = true
    · exact had
    · exfalso
      apply hne
      have haf : a.is_dir = false := Bool.not_eq_true a.is_dir ▸ had
      simp [entryCmp, haf, hbd2]
  · intro heq
    have heq2 : a.is_dir = b.is_dir := heq
    have hcn : entryCmp a b = cmpName a.name_lower b.name_lower := by
      cases hd : a.is_dir with
      | false =>
        have hbf : b.is_dir = false := by rw [← heq2, hd]
        simp [entryCmp, hd, hbf]
      | true =>
        have hbt : b.is_dir = true := by rw [← heq2, hd]
        simp [entryCmp, hd, hbt]
    rw [hcn] at hne
    show cmpName (a.name.map Char.toLower) (b.name.map Char.toLower) ≠ Ordering.gt
    rw [← hlow a ha, ← hlow b hb]
    exact hne

theorem dirListing_mem_of_raw (sh : Bool) (target : Name) (raw : List (Name × Bool)) :
    ∀ nd ∈ raw, (startsWithDot nd.1 = true → sh = true) →
      mkOut target nd ∈ dirListing sh target raw := by
  intro nd hnd hkeep
  unfold dirListing
  refine List.mem_map.mpr ⟨mkDirEntry target nd, ?_, rfl⟩
  rw [List.mem_mergeSort]
  exact List.mem_map.mpr
    ⟨nd, List.mem_filter.mpr ⟨hnd, (keepEntry_iff sh nd.1).mpr hkeep⟩, rfl⟩

theorem dirListing_mem_inv (sh : Bool) (target : Name) (raw : List (Name × Bool)) :
    ∀ e ∈ dirListing sh target raw,
      ∃ nd, nd ∈ raw ∧ e = mkOut target nd ∧
        (startsWithDot nd.1 = true → sh = true) := by
  intro e he
  unfold dirListing at he
  obtain ⟨d, hd, rfl⟩ := List.mem_map.mp he
  rw [List.mem_mergeSort] at hd
  obtain ⟨nd, hnd, rfl⟩ := List.mem_map.mp hd
  have hf := List.mem_filter.mp hnd
  exact ⟨nd, hf.1, rfl, (keepEntry_iff sh nd.1).mp hf.2⟩

/-- C8: for a readable directory target, list_directory succeeds with the
filtered sorted listing: every directory entry precedes every non-directory
entry, each of the two groups is ordered case-insensitively by name, and a
raw entry appears in the output iff it is not dot-named or the last typed
path component itself begins with a dot. -/
theorem list_directory_sorted_hidden (home : Option Name) (fs : Name → FsTarget)
    (path target : Name) (raw : List (Name × Bool))
    (hres : resolveTarget home path = .ok target)
    (hfs : fs target = .readableDir raw) :
    list_directory home fs path =
      .ok (dirListing (showHiddenOf path) target raw, target) ∧
    (dirListing (showHiddenOf path) target raw).Pairwise outLE ∧
    (∀ nd ∈ raw, (startsWithDot nd.1 = true → showHiddenOf path = true) →
      mkOut target nd ∈ dirListing (showHiddenOf path) target raw) ∧
    (∀ e ∈ dirListing (showHiddenOf path) target raw,
      ∃ nd, nd ∈ raw ∧ e = mkOut target nd ∧
        (startsWithDot nd.1 = true → showHiddenOf path = true)) :=
  ⟨by simp [list_directory, hres, hfs], dirListing_pairwise _ _ _,
    dirListing_mem_of_raw _ _ _, dirListing_mem_inv _ _ _⟩

/-- Witness for C8 on a directory holding a dot-named file and a plain
subdirectory, typed from a non-dot path component. -/
theorem list_directory_sorted_hidden_witness :
    list_directory none
        (fun _ => FsTarget.readableDir [(['.', 'h'], false), (['s'], true)])
        ['/', 'd'] =
      .ok (dirListing (showHiddenOf ['/', 'd']) ['/', 'd']
        [(['.', 'h'], false), (['s'], true)], ['/', 'd']) ∧
    (dirListing (showHiddenOf ['/', 'd']) ['/', 'd']
      [(['.', 'h'], false), (['s'], true)]).Pairwise outLE ∧
    (∀ nd ∈ ([(['.', 'h'], false), (['s'], true)] : List (Name × Bool)),
      (startsWithDot nd.1 = true → showHiddenOf ['/', 'd'] = true) →
      mkOut ['/', 'd'] nd ∈ dirListing (showHiddenOf ['/', 'd']) ['/', 'd']
        [(['.', 'h'], false), (['s'], true)]) ∧
    (∀ e ∈ dirListing (showHiddenOf ['/', 'd']) ['/', 'd']
        [(['.', 'h'], false), (['s'], true)],
      ∃ nd, nd ∈ ([(['.', 'h'], false), (['s'], true)] : List (Name × Bool)) ∧
        e = mkOut ['/', 'd'] nd ∧
        (startsWithDot nd.1 = true → showHiddenOf ['/', 'd'] = true)) :=
  list_directory_sorted_hidden none
    (fun _ => FsTarget.readableDir [(['.', 'h'], false), (['s'], true)])
    ['/', 'd'] ['/', 'd'] [(['.', 'h'], false), (['s'], true)] rfl rfl

end PtyRs
